import Mathlib

/-!
# Lyrics resolution of `music-downloader.js`

A shallow embedding of `cleanTitle`, `cleanArtist`, `tryFetchFromGenius`, `fetchLyrics`
and `saveLyrics`.

* A JavaScript string is the list of its UTF-16 code units (`JSString`), so a string may
  hold a lone surrogate.  None of the regular expressions of the source uses the `u` flag:
  they read the string one code unit at a time, as the model does.  `encodeURIComponent`
  throws a `URIError` on a string with a lone surrogate.
* The runtime function `String.prototype.toLowerCase` is a parameter `lower` of the model.
* The network is a parameter: the lrclib endpoint is a function of the pair
  `(track_name, artist_name)` that `encodeURIComponent` writes into the query URL, the
  Genius site is a pair of functions (search page, song page).
-/

namespace MusicDownloader

/-! ## JavaScript strings -/

/-- A JavaScript string: its UTF-16 code units. -/
abbrev JSString := List Nat

/-- The code unit of a character of the Basic Multilingual Plane. -/
def code (c : Char) : Nat := c.toNat

/-- The UTF-16 code units of one character: itself, or a surrogate pair. -/
def utf16Char (c : Char) : List Nat :=
  if c.toNat < 0x10000 then [c.toNat]
  else [0xD800 + (c.toNat - 0x10000) / 0x400, 0xDC00 + (c.toNat - 0x10000) % 0x400]

/-- The JavaScript string written as a string literal. -/
def utf16 (s : String) : JSString := s.toList.flatMap utf16Char

/-- The characters matched by `\s` and removed by `trim()`:
ECMAScript WhiteSpace and LineTerminator. -/
def isSpace (n : Nat) : Bool :=
  n = 0x09 || n = 0x0A || n = 0x0B || n = 0x0C || n = 0x0D || n = 0x20 || n = 0xA0 ||
  n = 0x1680 || (0x2000 ≤ n && n ≤ 0x200A) || n = 0x2028 || n = 0x2029 || n = 0x202F ||
  n = 0x205F || n = 0x3000 || n = 0xFEFF

/-- The characters the regular-expression atom `.` refuses: ECMAScript LineTerminator. -/
def isLineTerminator (n : Nat) : Bool :=
  n = 0x0A || n = 0x0D || n = 0x2028 || n = 0x2029

/-- The class `[a-zA-Z0-9]`. -/
def isAlnum (n : Nat) : Bool :=
  (0x61 ≤ n && n ≤ 0x7A) || (0x41 ≤ n && n ≤ 0x5A) || (0x30 ≤ n && n ≤ 0x39)

/-- The class `\w`, that is `[A-Za-z0-9_]`. -/
def isWord (c : Nat) : Bool := isAlnum c || c = 0x5F

/-- The method `String.prototype.trim`. -/
def trim (s : JSString) : JSString :=
  ((s.dropWhile isSpace).reverse.dropWhile isSpace).reverse

/-- The method `Array.prototype.join`. -/
def join (sep : JSString) : List JSString → JSString
  | [] => []
  | [x] => x
  | x :: y :: rest => x ++ sep ++ join sep (y :: rest)

/-- The method `String.prototype.split` with a one-character separator: `cur` is the piece
being read. -/
def splitOnChar (sep : Nat) : JSString → JSString → List JSString
  | cur, [] => [cur]
  | cur, x :: xs => if x = sep then cur :: splitOnChar sep [] xs else splitOnChar sep (cur ++ [x]) xs

/-- The method `String.prototype.includes`. -/
def includes : JSString → JSString → Bool
  | [], needle => needle.isEmpty
  | x :: xs, needle => needle.isPrefixOf (x :: xs) || includes xs needle

/-- The value of `Array.from(new Set(xs))`: a set keeps its values in insertion order and
`add` ignores a value that is already present. -/
def arrayFromSet {α : Type} [DecidableEq α] (xs : List α) : List α :=
  xs.foldl (fun set x => if x ∈ set then set else set ++ [x]) []

/-! ## Global replacement and splitting by a regular expression

A regular expression without anchors, look-around or back-references is given by
`matchAt`: applied to the rest of the input at some position it returns the length of the
match starting there, if there is one.  All expressions of the source match non-empty
strings only.  The counter `skip` is the number of characters of the current match that
are still to be consumed. -/

/-- The call `s.replace(/re/g, rep)`. -/
def replaceGo (matchAt : JSString → Option Nat) (rep : JSString) : Nat → JSString → JSString
  | _, [] => []
  | skip + 1, _ :: xs => replaceGo matchAt rep skip xs
  | 0, x :: xs =>
    match matchAt (x :: xs) with
    | some (n + 1) => rep ++ replaceGo matchAt rep n xs
    | _ => x :: replaceGo matchAt rep 0 xs

/-- The call `s.replace(/re/g, rep)`, from the start of the string. -/
def replaceAll (matchAt : JSString → Option Nat) (rep : JSString) (s : JSString) : JSString :=
  replaceGo matchAt rep 0 s

/-- The call `s.split(/re/)`: `cur` is the piece being read. -/
def splitGo (matchAt : JSString → Option Nat) : Nat → JSString → JSString → List JSString
  | _, cur, [] => [cur]
  | skip + 1, cur, _ :: xs => splitGo matchAt skip cur xs
  | 0, cur, x :: xs =>
    match matchAt (x :: xs) with
    | some (n + 1) => cur :: splitGo matchAt n [] xs
    | _ => splitGo matchAt 0 (cur ++ [x]) xs

/-- The call `s.split(/re/)`, from the start of the string. -/
def splitRegex (matchAt : JSString → Option Nat) (s : JSString) : List JSString :=
  splitGo matchAt 0 [] s

/-- Length of the lazy match of `.*?c` at the start of the input: the characters up to and
including the first `c`, provided no line terminator comes before it. -/
def lazyUntil (c : Nat) : JSString → Option Nat
  | [] => none
  | x :: xs =>
    if x = c then some 1
    else if isLineTerminator x then none
    else (lazyUntil c xs).map (· + 1)

/-- The expressions `\(.*?\)` (with `o = '('`, `c = ')'`) and `\[.*?\]`. -/
def groupAt (o c : Nat) : JSString → Option Nat
  | [] => none
  | x :: xs => if x = o then (lazyUntil c xs).map (· + 1) else none

/-- One character of a class, as in `["']` or `[^a-zA-Z0-9\s]`. -/
def classAt (p : Nat → Bool) : JSString → Option Nat
  | [] => none
  | x :: _ => if p x then some 1 else none

/-- The expression `\s*[:-]\s*`: a greedy run of white space, a colon or a hyphen, a greedy
run of white space. -/
def colonDashAt (s : JSString) : Option Nat :=
  let lead := s.takeWhile isSpace
  match s.dropWhile isSpace with
  | [] => none
  | x :: rest =>
    if x = (code ':') || x = (code '-') then some (lead.length + 1 + (rest.takeWhile isSpace).length)
    else none

/-- The expression `\s+`. -/
def spacesAt (s : JSString) : Option Nat :=
  match (s.takeWhile isSpace).length with
  | 0 => none
  | n + 1 => some (n + 1)

/-- Case-insensitive comparison of an input character with a pattern character under the
flag `i` without `u`: the two are canonicalised by upper-casing, and a character outside
ASCII is never identified with an ASCII one, so a pattern letter matches exactly its two
ASCII forms. -/
def eqIgnoreCase (x p : Nat) : Bool :=
  x = p || (isAlnum p && (x + 32 = p && 0x41 ≤ x && x ≤ 0x5A))

/-- Does the input start with the (lower-case) word `w`, ignoring case? -/
def startsWithIgnoreCase : JSString → JSString → Bool
  | _, [] => true
  | [], _ :: _ => false
  | x :: xs, p :: ps => eqIgnoreCase x p && startsWithIgnoreCase xs ps

/-- Length added by an optional `\.?` after a word of length `n`. -/
def optionalDot (n : Nat) (s : JSString) : Nat :=
  match s.drop n with
  | x :: _ => if x = code '.' then n + 1 else n
  | [] => n

/-- The expression `,|&|feat\.?|ft\.?|by|official|audio|video` under the flag `i`: the
alternatives are tried in the order written. -/
def separatorAt (s : JSString) : Option Nat :=
  if startsWithIgnoreCase s [code ','] then some 1
  else if startsWithIgnoreCase s [code '&'] then some 1
  else if startsWithIgnoreCase s (utf16 "feat") then some (optionalDot 4 s)
  else if startsWithIgnoreCase s (utf16 "ft") then some (optionalDot 2 s)
  else if startsWithIgnoreCase s (utf16 "by") then some 2
  else if startsWithIgnoreCase s (utf16 "official") then some 8
  else if startsWithIgnoreCase s (utf16 "audio") then some 5
  else if startsWithIgnoreCase s (utf16 "video") then some 5
  else none

/-! ## The normalisers -/

/-- The function `cleanTitle`. -/
def cleanTitle (title : JSString) : JSString :=
  trim
    (replaceAll spacesAt [code ' ']
      (replaceAll (classAt fun c => !(isAlnum c || isSpace c)) []
        (replaceAll colonDashAt [code ' ']
          (replaceAll (classAt fun c => c = (code '"') || c = (code '\'')) []
            (replaceAll (groupAt (code '[') (code ']')) []
              (replaceAll (groupAt (code '(') (code ')')) [] title))))))

/-- The function `cleanArtist`. -/
def cleanArtist (artist : JSString) : JSString :=
  trim
    (replaceAll spacesAt [code ' ']
      (replaceAll (classAt fun c => !(isWord c || isSpace c)) []
        (replaceAll separatorAt [] artist)))

/-- The five candidates of `titleVariants`, in the order of the array literal. -/
def titleCandidates (title : JSString) : List JSString :=
  [ cleanTitle title,
    trim (replaceAll (groupAt (code '(') (code ')')) [] title),
    trim (replaceAll (classAt fun c => c = (code '"') || c = (code '\'')) [] title),
    trim (replaceAll (classAt fun c => !(isAlnum c || isSpace c)) [] title),
    trim title ]

/-- The constant `titleVariants` of `fetchLyrics`. -/
def titleVariants (title : JSString) : List JSString :=
  arrayFromSet (titleCandidates title)

/-- The constant `tokens` of `fetchLyrics`, from `rawArtist`. -/
def artistTokens (rawArtist : JSString) : List JSString :=
  ((splitRegex separatorAt rawArtist).map trim).filter (fun a => !a.isEmpty)

/-- The candidates of `artistVariants`, in the order of the array literal. -/
def artistCandidates (artist : JSString) : List JSString :=
  let rawArtist := trim artist
  let tokens := artistTokens rawArtist
  let reversed := tokens.reverse
  tokens ++
  [ join (utf16 ", ") tokens,
    join (utf16 "  ") tokens,
    join (utf16 " ") tokens,
    join [] tokens,
    join (utf16 ", ") reversed,
    join (utf16 "  ") reversed,
    join (utf16 " ") reversed,
    join [] reversed,
    join (utf16 ", ") (splitOnChar (code ' ') [] artist),
    join (utf16 ", ") (splitOnChar (code ' ') [] artist).reverse,
    cleanArtist rawArtist ]

/-- The constant `artistVariants` of `fetchLyrics`. -/
def artistVariants (artist : JSString) : List JSString :=
  arrayFromSet (artistCandidates artist)

/-! ## The network and the two providers -/

/-- The lower-case mapping of `String.prototype.toLowerCase` on the characters used in the
concrete examples of this file: the capitals of Basic Latin, and U+212A KELVIN SIGN, whose
Unicode lower-case mapping is U+006B (the letter k).  The general theorems do not use it:
they hold for every function `lower`. -/
def toLowerCase (s : JSString) : JSString :=
  s.map fun n =>
    if 0x41 ≤ n && n ≤ 0x5A then n + 32
    else if n = 0x212A then code 'k'
    else n

/-- An element of the array that `res.json()` yields, as far as `fetchLyrics` reads it.
Reading a property of `null` throws a `TypeError`; of any other value it gives the
property, `none` standing for `undefined` or `null`.  The two properties are strings when
they are present, as lrclib types them. -/
inductive Entry where
  | null
  | value (syncedLyrics plainLyrics : Option JSString)
deriving DecidableEq

/-- The value `res.json()` resolves to: an array, or a value without a method `find`. -/
inductive Body where
  | notArray
  | array (entries : List Entry)
deriving DecidableEq

/-- What `fetchLyrics` reads of the response of `fetch(queryURL)`: `res.ok`,
`res.headers.get("content-type")`, and `res.json()` (`none` when it rejects). -/
structure Response where
  ok : Bool
  contentType : Option JSString
  json : Option Body
deriving DecidableEq

/-- The lrclib endpoint: the response to the query `(track_name, artist_name)`, `none`
when `fetch` rejects. -/
abbrev Lrclib := JSString → JSString → Option Response

/-- The Genius site as `tryFetchFromGenius` reads it.  `search q` is the `href` of the
first matching link of the search page for `q` (outer `none`: fetching or parsing throws,
inner `none`: no such link); `page url` is the text of `.lyrics` and of
`[data-lyrics-container]` on the song page (`none`: fetching or parsing throws). -/
structure Genius where
  search : JSString → Option (Option JSString)
  page : JSString → Option (JSString × JSString)

/-- An exception that a call can throw. -/
inductive JsError where
  | typeError
  | uriError
  | networkError
  | jsonError
deriving DecidableEq

/-- Truthiness of a property that is a string, `undefined` or `null`. -/
def truthy : Option JSString → Bool
  | some (_ :: _) => true
  | _ => false

/-- The string `[UNSYNCED LYRICS]\n\n` of line 207. -/
def unsyncedMarker : JSString := utf16 "[UNSYNCED LYRICS]\n\n"

/-- The call `data.find(entry => entry.syncedLyrics || entry.plainLyrics)` on an array. -/
def findHit : List Entry → Except JsError (Option (Option JSString × Option JSString))
  | [] => .ok none
  | .null :: _ => .error .typeError
  | .value synced plain :: rest =>
    if truthy synced || truthy plain then .ok (some (synced, plain)) else findHit rest

/-- The expression of line 207, the lyrics built from a hit. -/
def lyricsOfHit (synced plain : Option JSString) : JSString :=
  if truthy synced then synced.getD [] else unsyncedMarker ++ plain.getD []

/-- The expression `res.headers.get("content-type")?.includes("application/json")` of
line 203, `undefined` counting as false. -/
def jsonContentType (res : Response) : Bool :=
  match res.contentType with
  | some ct => includes ct (utf16 "application/json")
  | none => false

/-- The body of the `try` block of lines 202-210: `.ok (some lyrics)` is the `return`,
`.ok none` falls through to the next pair, `.error` is caught by line 211. -/
def lrclibAttempt : Option Response → Except JsError (Option JSString)
  | none => .error .networkError
  | some res =>
    if !res.ok || !jsonContentType res then .ok none
    else match res.json with
      | none => .error .jsonError
      | some .notArray => .error .typeError
      | some (.array data) =>
        match findHit data with
        | .error e => .error e
        | .ok none => .ok none
        | .ok (some (synced, plain)) => .ok (some (lyricsOfHit synced plain))

/-- Is the string free of lone surrogates?  A high surrogate (D800-DBFF) must be followed
by a low surrogate (DC00-DFFF), and a low surrogate must follow a high one.  The call
`encodeURIComponent(s)` throws a `URIError` exactly when this fails. -/
def isWellFormed : JSString → Bool
  | [] => true
  | [x] => !(0xD800 ≤ x && x ≤ 0xDFFF)
  | x :: y :: rest =>
    if 0xD800 ≤ x && x ≤ 0xDBFF then (0xDC00 ≤ y && y ≤ 0xDFFF) && isWellFormed rest
    else !(0xDC00 ≤ x && x ≤ 0xDFFF) && isWellFormed (y :: rest)

/-- The function `tryFetchFromGenius`; `none` is `null`.  The call of `encodeURIComponent`
on line 138 is inside the `try`, so its `URIError` is caught like every other error. -/
def tryFetchFromGenius (genius : Genius) (query : JSString) : Option JSString :=
  if !isWellFormed query then none
  else
    match genius.search query with
    | none => none
    | some none => none
    | some (some []) => none
    | some (some (c :: link)) =>
      match genius.page (c :: link) with
      | none => none
      | some (lyricsText, containerText) =>
        match trim lyricsText with
        | x :: xs => some (x :: xs)
        | [] =>
          match trim containerText with
          | y :: ys => some (y :: ys)
          | [] => none

/-! ## The function `fetchLyrics` -/

/-- The set `tried` together with the log of the lrclib queries issued so far. -/
structure Trace where
  tried : List JSString
  probes : List (JSString × JSString)
deriving DecidableEq

/-- The key of line 194. -/
def keyOf (lower : JSString → JSString) (t a : JSString) : JSString :=
  lower t ++ [code '|'] ++ lower a

/-- How a loop of `fetchLyrics` ends: it runs to its end, it executes `return lyrics`, or
an exception leaves it. -/
inductive Exit where
  | finished
  | returns (lyrics : JSString)
  | throws (e : JsError)
deriving DecidableEq

/-- The inner loop of lines 193-214 for one title variant.  Line 198 builds the query URL
with `encodeURIComponent(t)` and `encodeURIComponent(a)` before the `try` of line 201: a
`URIError` thrown there leaves the loop, after the key was added to `tried` and before the
query is issued. -/
def lrclibArtists (lower : JSString → JSString) (lrclib : Lrclib) (t : JSString) :
    List JSString → Trace → Exit × Trace
  | [], tr => (.finished, tr)
  | a :: rest, tr =>
    if keyOf lower t a ∈ tr.tried then lrclibArtists lower lrclib t rest tr
    else if !(isWellFormed t && isWellFormed a) then
      (.throws .uriError, ⟨tr.tried ++ [keyOf lower t a], tr.probes⟩)
    else
      let tr1 : Trace := ⟨tr.tried ++ [keyOf lower t a], tr.probes ++ [(t, a)]⟩
      match lrclibAttempt (lrclib t a) with
      | .ok (some lyrics) => (.returns lyrics, tr1)
      | _ => lrclibArtists lower lrclib t rest tr1

/-- The outer loop of lines 192-215. -/
def lrclibTitles (lower : JSString → JSString) (lrclib : Lrclib) (artists : List JSString) :
    List JSString → Trace → Exit × Trace
  | [], tr => (.finished, tr)
  | t :: rest, tr =>
    match lrclibArtists lower lrclib t artists tr with
    | (.finished, tr1) => lrclibTitles lower lrclib artists rest tr1
    | (exit, tr1) => (exit, tr1)

/-- The inner loop of lines 218-225 for one title variant, with the log of the Genius
queries issued so far. -/
def geniusArtists (genius : Genius) (t : JSString) :
    List JSString → List (JSString × JSString) → Option JSString × List (JSString × JSString)
  | [], log => (none, log)
  | a :: rest, log =>
    match tryFetchFromGenius genius (t ++ [code ' '] ++ a) with
    | some lyrics => (some lyrics, log ++ [(t, a)])
    | none => geniusArtists genius t rest (log ++ [(t, a)])

/-- The outer loop of lines 217-226. -/
def geniusTitles (genius : Genius) (artists : List JSString) :
    List JSString → List (JSString × JSString) → Option JSString × List (JSString × JSString)
  | [], log => (none, log)
  | t :: rest, log =>
    match geniusArtists genius t artists log with
    | (some lyrics, log1) => (some lyrics, log1)
    | (none, log1) => geniusTitles genius artists rest log1

/-- How a call of `fetchLyrics` ends: it returns lyrics or `null`, or it throws. -/
inductive Outcome where
  | returned (lyrics : Option JSString)
  | threw (e : JsError)
deriving DecidableEq

/-- A run of `fetchLyrics`: its outcome, whether line 155 printed the warning, and the
pairs queried at lrclib and at Genius, in order. -/
structure Run where
  outcome : Outcome
  warned : Bool
  lrclibProbes : List (JSString × JSString)
  geniusProbes : List (JSString × JSString)
deriving DecidableEq

/-- The function `fetchLyrics`.  The argument `artist` is `none` when the caller passes
`undefined` or `null`; then `artist.trim()` of line 165 throws a `TypeError`. -/
def fetchLyrics (lower : JSString → JSString) (lrclib : Lrclib) (genius : Genius)
    (title : JSString) (artist : Option JSString) : Run :=
  let warned : Bool :=
    match artist with
    | none => true
    | some a => a.isEmpty || (trim a).isEmpty
  let titles := titleVariants title
  match artist with
  | none => ⟨.threw .typeError, warned, [], []⟩
  | some artist =>
    let artists := artistVariants artist
    match lrclibTitles lower lrclib artists titles ⟨[], []⟩ with
    | (.returns lyrics, tr) => ⟨.returned (some lyrics), warned, tr.probes, []⟩
    | (.throws e, tr) => ⟨.threw e, warned, tr.probes, []⟩
    | (.finished, tr) =>
      match geniusTitles genius artists titles [] with
      | (some lyrics, log) => ⟨.returned (some lyrics), warned, tr.probes, log⟩
      | (none, log) => ⟨.returned none, warned, tr.probes, log⟩

/-- The extension chosen by lines 233-234 of `saveLyrics`. -/
def saveLyricsExt (lyrics : JSString) : JSString :=
  let isSynced := includes lyrics [code '[']
  if isSynced then (utf16 ".lrc") else (utf16 ".txt")

/-! ### Providers used in the examples -/

/-- An lrclib endpoint that answers every query with the same response. -/
def constLrclib (r : Option Response) : Lrclib := fun _ _ => r

/-- A Genius site whose search never yields a link. -/
def noGenius : Genius := ⟨fun _ => some none, fun _ => none⟩

/-- An ok JSON response with the given entries. -/
def jsonArray (entries : List Entry) : Option Response :=
  some ⟨true, some (utf16 "application/json; charset=utf-8"), some (.array entries)⟩

/-! ## Descriptions used in the statements -/

/-- The pairs of the two nested loops in row-major order: outer loop over the title
variants, inner loop over the artist variants. -/
def pairsOf (titles artists : List JSString) : List (JSString × JSString) :=
  titles.flatMap fun t => artists.map fun a => (t, a)

/-- The pairs that pass the seen-set `tried`, in order: a pair is dropped when its key is
in the set, and the key of a pair that is kept is added. -/
def unseen (lower : JSString → JSString) :
    List (JSString × JSString) → List JSString → List (JSString × JSString)
  | [], _ => []
  | p :: ps, tried =>
    if keyOf lower p.1 p.2 ∈ tried then unseen lower ps tried
    else p :: unseen lower ps (tried ++ [keyOf lower p.1 p.2])

/-- The query variants of a resolution run: the pairs that pass the seen-set when no lrclib
query succeeds. -/
def queryVariants (lower : JSString → JSString) (title artist : JSString) :
    List (JSString × JSString) :=
  unseen lower (pairsOf (titleVariants title) (artistVariants artist)) []

/-- The entries of a list whose image under `f` differs from that of every earlier entry. -/
def keepFirstBy {α β : Type} [DecidableEq β] (f : α → β) : List α → List α
  | [] => []
  | x :: xs => x :: (keepFirstBy f xs).filter fun y => f y ≠ f x

/-- The index of the first entry equal to `x`, as `Array.prototype.indexOf` counts it (the
length of the list when there is none). -/
def indexOf {α : Type} [DecidableEq α] (x : α) : List α → Nat
  | [] => 0
  | y :: ys => if y = x then 0 else indexOf x ys + 1

/-- The cleaned artist string as the specification words it: the tokens (split on the
separators, trimmed, empty ones dropped) rejoined with one space, punctuation stripped. -/
def rejoinedTokens (artist : JSString) : JSString :=
  replaceAll (classAt fun c => !(isWord c || isSpace c)) [] (join [code ' '] (artistTokens artist))

/-- An entry with a non-empty `syncedLyrics` or `plainLyrics`. -/
def entryHasLyrics : Entry → Bool
  | .null => false
  | .value synced plain => truthy synced || truthy plain

/-- The test of line 203 passes: `res.ok` holds and the content type includes
`application/json`. -/
def okJson (res : Response) : Bool :=
  res.ok && jsonContentType res

/-- An ok JSON-array response containing an entry with non-empty `syncedLyrics` or
`plainLyrics`. -/
def hasLyricsEntry : Option Response → Bool
  | some res =>
    okJson res && (match res.json with
                   | some (.array data) => data.any entryHasLyrics
                   | _ => false)
  | none => false

/-- An ok JSON-array response whose first entry with non-empty lyrics is
`value synced plain`, no entry before it being `null`. -/
def ReachableHit (r : Option Response) (synced plain : Option JSString) : Prop :=
  ∃ res before after, r = some res ∧ okJson res = true ∧
    res.json = some (.array (before ++ Entry.value synced plain :: after)) ∧
    (∀ e ∈ before, e ≠ Entry.null ∧ entryHasLyrics e = false) ∧
    (truthy synced || truthy plain) = true

/-- An lrclib query that finds no lyrics: `fetch` throws, the status is not ok or the
content type is not JSON, `res.json()` throws, the body is not an array, or it is an array
with no entry having non-empty `syncedLyrics` or `plainLyrics`. -/
def LrclibMiss (r : Option Response) : Prop :=
  r = none ∨ ∃ res, r = some res ∧
    (okJson res = false ∨ res.json = none ∨ res.json = some .notArray ∨
      ∃ data, res.json = some (.array data) ∧ ∀ e ∈ data, entryHasLyrics e = false)

/-- A Genius query that finds no lyrics: building the URL or the search throws, the search
yields no link (or an empty one), the song page throws, or both containers hold no text. -/
def GeniusMiss (genius : Genius) (query : JSString) : Prop :=
  isWellFormed query = false ∨
  genius.search query = none ∨ genius.search query = some none ∨
  genius.search query = some (some []) ∨
  ∃ link, genius.search query = some (some link) ∧
    (genius.page link = none ∨
      ∃ lyricsText containerText, genius.page link = some (lyricsText, containerText) ∧
        trim lyricsText = [] ∧ trim containerText = [])

/-- The two loops of lines 192-215 as one loop over a list of pairs. -/
def lrclibFlat (lower : JSString → JSString) (lrclib : Lrclib) :
    List (JSString × JSString) → Trace → Exit × Trace
  | [], tr => (.finished, tr)
  | p :: rest, tr =>
    if keyOf lower p.1 p.2 ∈ tr.tried then lrclibFlat lower lrclib rest tr
    else if !(isWellFormed p.1 && isWellFormed p.2) then
      (.throws .uriError, ⟨tr.tried ++ [keyOf lower p.1 p.2], tr.probes⟩)
    else
      let tr1 : Trace := ⟨tr.tried ++ [keyOf lower p.1 p.2], tr.probes ++ [p]⟩
      match lrclibAttempt (lrclib p.1 p.2) with
      | .ok (some lyrics) => (.returns lyrics, tr1)
      | _ => lrclibFlat lower lrclib rest tr1

/-- Both strings of a pair can be URI-encoded. -/
def encodable (p : JSString × JSString) : Bool :=
  isWellFormed p.1 && isWellFormed p.2

/-- An lrclib endpoint that has lyrics exactly for the artists written with a comma. -/
def commaLrclib : Lrclib := fun _ a =>
  if includes a [code ','] then jsonArray [Entry.value (some (utf16 "[00:01.00]Hello")) none]
  else none

/-! ## Facts about `Array.from(new Set(xs))` -/

/-- Adding the values of `xs` to a set that holds `set`. -/
def addAll {α : Type} [DecidableEq α] (set xs : List α) : List α :=
  xs.foldl (fun set x => if x ∈ set then set else set ++ [x]) set

theorem addAll_nil {α : Type} [DecidableEq α] (set : List α) : addAll set [] = set := rfl

theorem addAll_cons {α : Type} [DecidableEq α] (set : List α) (x : α) (xs : List α) :
    addAll set (x :: xs) = addAll (if x ∈ set then set else set ++ [x]) xs := rfl

theorem addAll_append {α : Type} [DecidableEq α] (set xs ys : List α) :
    addAll set (xs ++ ys) = addAll (addAll set xs) ys := by
  simp [addAll, List.foldl_append]

theorem arrayFromSet_eq {α : Type} [DecidableEq α] (xs : List α) :
    arrayFromSet xs = addAll [] xs := rfl

theorem arrayFromSet_append {α : Type} [DecidableEq α] (xs ys : List α) :
    arrayFromSet (xs ++ ys) = addAll (arrayFromSet xs) ys := by
  simp [arrayFromSet_eq, addAll_append]

theorem addAll_isPrefix {α : Type} [DecidableEq α] (xs : List α) :
    ∀ set : List α, ∃ more, addAll set xs = set ++ more := by
  induction xs with
  | nil => intro set; exact ⟨[], by simp [addAll_nil]⟩
  | cons x xs ih =>
    intro set
    rw [addAll_cons]
    by_cases h : x ∈ set
    · simpa [h] using ih set
    · obtain ⟨more, hm⟩ := ih (set ++ [x])
      exact ⟨x :: more, by simp [h, hm]⟩

theorem mem_addAll {α : Type} [DecidableEq α] (a : α) (xs : List α) :
    ∀ set : List α, a ∈ addAll set xs ↔ a ∈ set ∨ a ∈ xs := by
  induction xs with
  | nil => intro set; simp [addAll_nil]
  | cons x xs ih =>
    intro set
    rw [addAll_cons, ih]
    by_cases h : x ∈ set
    · simp only [h, if_true, List.mem_cons]
      constructor
      · rintro (h1 | h1)
        · exact Or.inl h1
        · exact Or.inr (Or.inr h1)
      · rintro (h1 | h1 | h1)
        · exact Or.inl h1
        · exact Or.inl (h1 ▸ h)
        · exact Or.inr h1
    · simp only [h, if_false, List.mem_append, List.mem_singleton, List.mem_cons]
      tauto

theorem mem_arrayFromSet {α : Type} [DecidableEq α] (a : α) (xs : List α) :
    a ∈ arrayFromSet xs ↔ a ∈ xs := by
  simp [arrayFromSet_eq, mem_addAll]

theorem addAll_of_mem {α : Type} [DecidableEq α] (set : List α) (x : α) (h : x ∈ set) :
    addAll set [x] = set := by
  simp [addAll_cons, addAll_nil, h]

theorem addAll_of_not_mem {α : Type} [DecidableEq α] (set : List α) (x : α) (h : x ∉ set) :
    addAll set [x] = set ++ [x] := by
  simp [addAll_cons, addAll_nil, h]

theorem indexOf_lt_of_mem {α : Type} [DecidableEq α] (x : α) (l more : List α)
    (h : x ∈ l) : indexOf x (l ++ more) < l.length := by
  induction l with
  | nil => simp at h
  | cons y ys ih =>
    by_cases hy : y = x
    · simp [indexOf, hy]
    · have hx : x ∈ ys := by
        rcases List.mem_cons.1 h with h1 | h1
        · exact absurd h1.symm hy
        · exact h1
      have := ih hx
      simp only [List.cons_append, indexOf, hy, if_false, List.length_cons, List.append_eq]
      omega

theorem le_indexOf_of_not_mem {α : Type} [DecidableEq α] (x : α) (l more : List α)
    (h : x ∉ l) : l.length ≤ indexOf x (l ++ more) := by
  induction l with
  | nil => simp
  | cons y ys ih =>
    have hy : ¬ y = x := fun e => h (e ▸ List.mem_cons_self _ _)
    have := ih (fun hx => h (List.mem_cons_of_mem _ hx))
    simp only [List.cons_append, indexOf, hy, if_false, List.length_cons, List.append_eq]
    omega

/-- An entry of a first block of candidates comes before an entry that is not in that
block. -/
theorem indexOf_arrayFromSet_lt {α : Type} [DecidableEq α] (first rest : List α) (x y : α)
    (hx : x ∈ first) (hy : y ∉ first) :
    indexOf x (arrayFromSet (first ++ rest)) < indexOf y (arrayFromSet (first ++ rest)) := by
  obtain ⟨more, hm⟩ := addAll_isPrefix rest (arrayFromSet first)
  rw [arrayFromSet_append, hm]
  have hx1 : x ∈ arrayFromSet first := (mem_arrayFromSet x first).2 hx
  have hy1 : y ∉ arrayFromSet first := fun h => hy ((mem_arrayFromSet y first).1 h)
  have h1 := indexOf_lt_of_mem x _ more hx1
  have h2 := le_indexOf_of_not_mem y _ more hy1
  omega

/-! ## The title variants -/

/-- C6, as the code has it.  The first title variant is `cleanTitle(title)`; the trimmed
original title is always an entry of the list; it is the last entry whenever it differs
from the four candidates listed before it (when it equals one of them it keeps the position
of that earlier candidate, and later candidates may follow it). -/
theorem titleVariants_first_and_original (title : JSString) :
    (titleVariants title).head? = some (cleanTitle title) ∧
    trim title ∈ titleVariants title ∧
    (trim title ∉ (titleCandidates title).dropLast →
      (titleVariants title).getLast? = some (trim title)) := by
  refine ⟨?_, ?_, ?_⟩
  · obtain ⟨more, hm⟩ := addAll_isPrefix (titleCandidates title).tail [cleanTitle title]
    have h : titleVariants title = addAll [cleanTitle title] (titleCandidates title).tail := rfl
    rw [h, hm]
    rfl
  · exact (mem_arrayFromSet _ _).2 (by simp [titleCandidates])
  · intro h
    have hsplit : titleCandidates title = (titleCandidates title).dropLast ++ [trim title] := rfl
    have hnot : trim title ∉ arrayFromSet (titleCandidates title).dropLast :=
      fun hin => h ((mem_arrayFromSet _ _).1 hin)
    unfold titleVariants
    rw [hsplit, arrayFromSet_append, addAll_of_not_mem _ _ hnot]
    simp

/-- C6 fails as stated, on the title of the specification: the last title variant of
`Song (Official Video)` is `Song Official Video`, not the original title, which sits in
the middle of the list. -/
theorem titleVariants_original_not_last :
    titleVariants (utf16 "Song (Official Video)") =
      [(utf16 "Song"), (utf16 "Song (Official Video)"), (utf16 "Song Official Video")] ∧
    (titleVariants (utf16 "Song (Official Video)")).getLast? ≠
      some (trim (utf16 "Song (Official Video)")) := by
  decide

/-! ## The cleaned artist string -/

theorem flatten_splitGo (matchAt : JSString → Option Nat) (s : JSString) :
    ∀ (skip : Nat) (cur : JSString),
      (splitGo matchAt skip cur s).flatten = cur ++ replaceGo matchAt [] skip s := by
  induction s with
  | nil => intro skip cur; cases skip <;> simp [splitGo, replaceGo]
  | cons x xs ih =>
    intro skip cur
    cases skip with
    | succ k => simp [splitGo, replaceGo, ih]
    | zero =>
      simp only [splitGo, replaceGo]
      cases h : matchAt (x :: xs) with
      | none => simp [ih]
      | some n =>
        cases n with
        | zero => simp [ih]
        | succ k => simp [ih]

/-- C10, as the code has it.  `cleanArtist(artist)` is the artist string split on the
separators with the pieces concatenated as they are (not trimmed, nothing put between
them), then stripped of the characters outside `\w` and `\s`, with each run of white space
replaced by one space, and trimmed. -/
theorem cleanArtist_eq_concat_pieces (artist : JSString) :
    cleanArtist artist =
      trim (replaceAll spacesAt [code ' ']
        (replaceAll (classAt fun c => !(isWord c || isSpace c)) []
          (splitRegex separatorAt artist).flatten)) := by
  have h := flatten_splitGo separatorAt artist 0 []
  simp only [List.nil_append] at h
  unfold cleanArtist
  rw [splitRegex, h]
  rfl

/-- C10 fails as stated, on its own candidate: for `A,B` the tokens are `A` and `B`, their
rejoin with one space is `A B`, and `cleanArtist` gives `AB`. -/
theorem cleanArtist_ne_rejoinedTokens :
    artistTokens (utf16 "A,B") = [(utf16 "A"), (utf16 "B")] ∧
    rejoinedTokens (utf16 "A,B") = utf16 "A B" ∧
    cleanArtist (utf16 "A,B") = utf16 "AB" ∧
    cleanArtist (utf16 "A,B") ≠ rejoinedTokens (utf16 "A,B") := by
  decide

/-! ## One lrclib attempt -/

theorem findHit_of_no_lyrics (data : List Entry) (h : ∀ e ∈ data, entryHasLyrics e = false) :
    ∀ hit, findHit data ≠ .ok (some hit) := by
  induction data with
  | nil => intro hit; simp [findHit]
  | cons e rest ih =>
    intro hit
    cases e with
    | null => simp [findHit]
    | value synced plain =>
      have he : (truthy synced || truthy plain) = false := h _ (List.mem_cons_self _ _)
      simp only [findHit, he]
      exact ih (fun e he => h e (List.mem_cons_of_mem _ he)) hit

theorem findHit_of_reachable (before after : List Entry) (synced plain : Option JSString)
    (hb : ∀ e ∈ before, e ≠ Entry.null ∧ entryHasLyrics e = false)
    (hit : (truthy synced || truthy plain) = true) :
    findHit (before ++ Entry.value synced plain :: after) = .ok (some (synced, plain)) := by
  induction before with
  | nil => simp [findHit, hit]
  | cons e rest ih =>
    cases e with
    | null => exact absurd rfl (hb _ (List.mem_cons_self _ _)).1
    | value s p =>
      have he : (truthy s || truthy p) = false := (hb _ (List.mem_cons_self _ _)).2
      simp only [List.cons_append, findHit, he]
      exact ih (fun e he => hb e (List.mem_cons_of_mem _ he))

theorem reachable_of_findHit (data : List Entry) (synced plain : Option JSString)
    (h : findHit data = .ok (some (synced, plain))) :
    ∃ before after, data = before ++ Entry.value synced plain :: after ∧
      (∀ e ∈ before, e ≠ Entry.null ∧ entryHasLyrics e = false) ∧
      (truthy synced || truthy plain) = true := by
  induction data with
  | nil => simp [findHit] at h
  | cons e rest ih =>
    cases e with
    | null => simp [findHit] at h
    | value s p =>
      by_cases he : (truthy s || truthy p) = true
      · simp only [findHit, he, if_true] at h
        injection h with h1
        injection h1 with h2
        injection h2 with hs hp
        subst hs; subst hp
        exact ⟨[], rest, rfl, by simp, he⟩
      · have he1 : (truthy s || truthy p) = false := by simpa using he
        simp only [findHit, he1] at h
        obtain ⟨before, after, hd, hb, ht⟩ := ih h
        refine ⟨Entry.value s p :: before, after, by simp [hd], ?_, ht⟩
        intro e hmem
        rcases List.mem_cons.1 hmem with rfl | hmem
        · exact ⟨by simp, he1⟩
        · exact hb e hmem

theorem lrclibAttempt_of_reachable (r : Option Response) (synced plain : Option JSString)
    (h : ReachableHit r synced plain) :
    lrclibAttempt r = .ok (some (lyricsOfHit synced plain)) := by
  obtain ⟨res, before, after, rfl, hok, hjson, hb, hit⟩ := h
  have hf := findHit_of_reachable before after synced plain hb hit
  unfold okJson at hok
  simp only [Bool.and_eq_true] at hok
  simp [lrclibAttempt, hok.1, hok.2, hjson, hf]

theorem reachable_of_lrclibAttempt (r : Option Response) (lyrics : JSString)
    (h : lrclibAttempt r = .ok (some lyrics)) :
    ∃ synced plain, ReachableHit r synced plain ∧ lyrics = lyricsOfHit synced plain := by
  cases r with
  | none => simp [lrclibAttempt] at h
  | some res =>
    by_cases hok : okJson res = true
    · have hok1 := hok
      unfold okJson at hok1
      simp only [Bool.and_eq_true] at hok1
      cases hj : res.json with
      | none => simp [lrclibAttempt, hok1.1, hok1.2, hj] at h
      | some body =>
        cases body with
        | notArray => simp [lrclibAttempt, hok1.1, hok1.2, hj] at h
        | array data =>
          cases hf : findHit data with
          | error e => simp [lrclibAttempt, hok1.1, hok1.2, hj, hf] at h
          | ok found =>
            cases found with
            | none => simp [lrclibAttempt, hok1.1, hok1.2, hj, hf] at h
            | some sp =>
              obtain ⟨synced, plain⟩ := sp
              simp [lrclibAttempt, hok1.1, hok1.2, hj, hf] at h
              obtain ⟨before, after, hd, hb, ht⟩ := reachable_of_findHit data synced plain hf
              exact ⟨synced, plain, ⟨res, before, after, rfl, hok, by rw [hj, hd], hb, ht⟩,
                h.symm⟩
    · have hok1 : okJson res = false := by simpa using hok
      have : lrclibAttempt (some res) = .ok none := by
        unfold okJson at hok1
        unfold lrclibAttempt
        cases hres : res.ok <;> simp_all
      rw [this] at h
      simp at h

theorem lrclibAttempt_of_miss (r : Option Response) (h : LrclibMiss r) :
    ∀ lyrics, lrclibAttempt r ≠ .ok (some lyrics) := by
  intro lyrics hl
  obtain ⟨synced, plain, ⟨res, before, after, hr, hok, hjson, _, hit⟩, _⟩ :=
    reachable_of_lrclibAttempt r lyrics hl
  rcases h with h | ⟨res1, hr1, h⟩
  · rw [h] at hr; cases hr
  · rw [hr] at hr1
    injection hr1 with hr1
    subst hr1
    rcases h with h | h | h | ⟨data, hd, hno⟩
    · rw [h] at hok; cases hok
    · rw [h] at hjson; cases hjson
    · rw [h] at hjson; cases hjson
    · rw [hd] at hjson
      injection hjson with hjson
      injection hjson with hjson
      have := hno (Entry.value synced plain) (by rw [hjson]; simp)
      simp only [entryHasLyrics] at this
      rw [this] at hit
      cases hit

/-! ## The lrclib pass -/

theorem lrclibFlat_seen (lower : JSString → JSString) (lrclib : Lrclib)
    (p : JSString × JSString) (rest : List (JSString × JSString)) (tr : Trace)
    (h : keyOf lower p.1 p.2 ∈ tr.tried) :
    lrclibFlat lower lrclib (p :: rest) tr = lrclibFlat lower lrclib rest tr := by
  simp [lrclibFlat, h]

theorem lrclibFlat_throw (lower : JSString → JSString) (lrclib : Lrclib)
    (p : JSString × JSString) (rest : List (JSString × JSString)) (tr : Trace)
    (h : keyOf lower p.1 p.2 ∉ tr.tried) (hw : encodable p = false) :
    lrclibFlat lower lrclib (p :: rest) tr =
      (.throws .uriError, ⟨tr.tried ++ [keyOf lower p.1 p.2], tr.probes⟩) := by
  have hw1 : (isWellFormed p.1 && isWellFormed p.2) = false := hw
  simp only [lrclibFlat, h, if_false, hw1, Bool.not_false, if_true]

theorem lrclibFlat_hit (lower : JSString → JSString) (lrclib : Lrclib)
    (p : JSString × JSString) (rest : List (JSString × JSString)) (tr : Trace)
    (lyrics : JSString) (h : keyOf lower p.1 p.2 ∉ tr.tried) (hw : encodable p = true)
    (hl : lrclibAttempt (lrclib p.1 p.2) = .ok (some lyrics)) :
    lrclibFlat lower lrclib (p :: rest) tr =
      (.returns lyrics, ⟨tr.tried ++ [keyOf lower p.1 p.2], tr.probes ++ [p]⟩) := by
  have hw1 : (isWellFormed p.1 && isWellFormed p.2) = true := hw
  simp only [lrclibFlat, h, if_false, hw1, Bool.not_true, Bool.false_eq_true, hl]

theorem lrclibFlat_miss (lower : JSString → JSString) (lrclib : Lrclib)
    (p : JSString × JSString) (rest : List (JSString × JSString)) (tr : Trace)
    (h : keyOf lower p.1 p.2 ∉ tr.tried) (hw : encodable p = true)
    (hl : ∀ lyrics, lrclibAttempt (lrclib p.1 p.2) ≠ .ok (some lyrics)) :
    lrclibFlat lower lrclib (p :: rest) tr =
      lrclibFlat lower lrclib rest ⟨tr.tried ++ [keyOf lower p.1 p.2], tr.probes ++ [p]⟩ := by
  have hw1 : (isWellFormed p.1 && isWellFormed p.2) = true := hw
  cases hr : lrclibAttempt (lrclib p.1 p.2) with
  | error e => simp only [lrclibFlat, h, if_false, hw1, Bool.not_true, Bool.false_eq_true, hr]
  | ok found =>
    cases found with
    | none => simp only [lrclibFlat, h, if_false, hw1, Bool.not_true, Bool.false_eq_true, hr]
    | some lyrics => exact absurd hr (hl lyrics)

theorem lrclibArtists_eq_flat (lower : JSString → JSString) (lrclib : Lrclib) (t : JSString)
    (artists : List JSString) :
    ∀ tr, lrclibArtists lower lrclib t artists tr =
      lrclibFlat lower lrclib (artists.map fun a => (t, a)) tr := by
  induction artists with
  | nil => intro tr; rfl
  | cons a rest ih =>
    intro tr
    simp only [lrclibArtists, List.map_cons, lrclibFlat]
    split
    · exact ih tr
    · split
      · rfl
      · cases lrclibAttempt (lrclib t a) with
        | error e => exact ih _
        | ok found =>
          cases found with
          | none => exact ih _
          | some lyrics => rfl

theorem lrclibFlat_append (lower : JSString → JSString) (lrclib : Lrclib)
    (ps qs : List (JSString × JSString)) :
    ∀ tr, lrclibFlat lower lrclib (ps ++ qs) tr =
      match lrclibFlat lower lrclib ps tr with
      | (.finished, tr1) => lrclibFlat lower lrclib qs tr1
      | (exit, tr1) => (exit, tr1) := by
  induction ps with
  | nil => intro tr; rfl
  | cons p rest ih =>
    intro tr
    simp only [List.cons_append, lrclibFlat]
    split
    · exact ih tr
    · split
      · rfl
      · cases lrclibAttempt (lrclib p.1 p.2) with
        | error e => exact ih _
        | ok found =>
          cases found with
          | none => exact ih _
          | some lyrics => rfl

theorem lrclibTitles_eq_flat (lower : JSString → JSString) (lrclib : Lrclib)
    (artists titles : List JSString) :
    ∀ tr, lrclibTitles lower lrclib artists titles tr =
      lrclibFlat lower lrclib (pairsOf titles artists) tr := by
  induction titles with
  | nil => intro tr; rfl
  | cons t rest ih =>
    intro tr
    have hp : pairsOf (t :: rest) artists =
        (artists.map fun a => (t, a)) ++ pairsOf rest artists := by
      simp [pairsOf]
    rw [hp, lrclibFlat_append, ← lrclibArtists_eq_flat]
    simp only [lrclibTitles]
    cases h : lrclibArtists lower lrclib t artists tr with
    | mk exit tr1 =>
      cases exit with
      | finished => exact ih tr1
      | returns lyrics => rfl
      | throws e => rfl

/-- Whatever the endpoint answers, the pairs queried are an initial segment of the pairs
that pass the seen-set. -/
theorem lrclibFlat_probes (lower : JSString → JSString) (lrclib : Lrclib)
    (ps : List (JSString × JSString)) :
    ∀ tr, ∃ done, done <+: unseen lower ps tr.tried ∧
      (lrclibFlat lower lrclib ps tr).2.probes = tr.probes ++ done := by
  induction ps with
  | nil => intro tr; exact ⟨[], by simp [unseen], by simp [lrclibFlat]⟩
  | cons p rest ih =>
    intro tr
    by_cases h : keyOf lower p.1 p.2 ∈ tr.tried
    · rw [lrclibFlat_seen _ _ _ _ _ h]
      simpa [unseen, h] using ih tr
    · by_cases hw : encodable p = true
      · by_cases hl : ∃ lyrics, lrclibAttempt (lrclib p.1 p.2) = .ok (some lyrics)
        · obtain ⟨lyrics, hl⟩ := hl
          rw [lrclibFlat_hit _ _ _ _ _ _ h hw hl]
          refine ⟨[p], ?_, rfl⟩
          simp only [unseen, h, if_false]
          exact ⟨_, rfl⟩
        · have hl1 : ∀ lyrics, lrclibAttempt (lrclib p.1 p.2) ≠ .ok (some lyrics) :=
            fun lyrics hx => hl ⟨lyrics, hx⟩
          rw [lrclibFlat_miss _ _ _ _ _ h hw hl1]
          obtain ⟨done, hd, hp⟩ := ih ⟨tr.tried ++ [keyOf lower p.1 p.2], tr.probes ++ [p]⟩
          refine ⟨p :: done, ?_, by simp [hp]⟩
          simp only [unseen, h, if_false]
          exact List.prefix_cons_inj p |>.2 hd
      · have hw1 : encodable p = false := by simpa using hw
        rw [lrclibFlat_throw _ _ _ _ _ h hw1]
        exact ⟨[], List.nil_prefix, by simp⟩

/-- When every pair that passes the seen-set can be URI-encoded and its query finds
nothing, all of them are queried and the pass runs to its end. -/
theorem lrclibFlat_exhaust (lower : JSString → JSString) (lrclib : Lrclib)
    (ps : List (JSString × JSString)) :
    ∀ tr, (∀ p ∈ unseen lower ps tr.tried, encodable p = true ∧ ∀ lyrics,
        lrclibAttempt (lrclib p.1 p.2) ≠ .ok (some lyrics)) →
      (lrclibFlat lower lrclib ps tr).1 = .finished ∧
      (lrclibFlat lower lrclib ps tr).2.probes = tr.probes ++ unseen lower ps tr.tried := by
  induction ps with
  | nil => intro tr _; simp [unseen, lrclibFlat]
  | cons p rest ih =>
    intro tr hall
    by_cases h : keyOf lower p.1 p.2 ∈ tr.tried
    · rw [lrclibFlat_seen _ _ _ _ _ h]
      simp only [unseen, h, if_true] at hall ⊢
      exact ih tr hall
    · simp only [unseen, h, if_false] at hall ⊢
      have hp := hall p (List.mem_cons_self _ _)
      rw [lrclibFlat_miss _ _ _ _ _ h hp.1 hp.2]
      have := ih ⟨tr.tried ++ [keyOf lower p.1 p.2], tr.probes ++ [p]⟩
        (fun q hq => hall q (List.mem_cons_of_mem _ hq))
      simpa using this

/-- The first pair among those that pass the seen-set whose query succeeds ends the pass,
when the pairs up to it can be URI-encoded. -/
theorem lrclibFlat_first_hit (lower : JSString → JSString) (lrclib : Lrclib)
    (ps : List (JSString × JSString)) :
    ∀ (tr : Trace) (before after : List (JSString × JSString)) (p : JSString × JSString)
      (lyrics : JSString),
      unseen lower ps tr.tried = before ++ p :: after →
      (∀ q ∈ before, encodable q = true ∧
        ∀ l, lrclibAttempt (lrclib q.1 q.2) ≠ .ok (some l)) →
      encodable p = true →
      lrclibAttempt (lrclib p.1 p.2) = .ok (some lyrics) →
      (lrclibFlat lower lrclib ps tr).1 = .returns lyrics ∧
      (lrclibFlat lower lrclib ps tr).2.probes = tr.probes ++ before ++ [p] := by
  induction ps with
  | nil => intro tr before after p lyrics hu; simp [unseen] at hu
  | cons q rest ih =>
    intro tr before after p lyrics hu hbefore hw hp
    by_cases h : keyOf lower q.1 q.2 ∈ tr.tried
    · rw [lrclibFlat_seen _ _ _ _ _ h]
      simp only [unseen, h, if_true] at hu
      exact ih tr before after p lyrics hu hbefore hw hp
    · simp only [unseen, h, if_false] at hu
      cases before with
      | nil =>
        simp only [List.nil_append, List.cons.injEq] at hu
        obtain ⟨rfl, _⟩ := hu
        rw [lrclibFlat_hit _ _ _ _ _ _ h hw hp]
        simp
      | cons b before1 =>
        simp only [List.cons_append, List.cons.injEq] at hu
        obtain ⟨rfl, hu⟩ := hu
        have hq := hbefore q (List.mem_cons_self _ _)
        rw [lrclibFlat_miss _ _ _ _ _ h hq.1 hq.2]
        have := ih ⟨tr.tried ++ [keyOf lower q.1 q.2], tr.probes ++ [q]⟩ before1 after p lyrics
          hu (fun x hx => hbefore x (List.mem_cons_of_mem _ hx)) hw hp
        simpa using this

theorem unseen_pairwise (lower : JSString → JSString) (ps : List (JSString × JSString)) :
    ∀ tried, (unseen lower ps tried).Pairwise
        (fun p q => keyOf lower p.1 p.2 ≠ keyOf lower q.1 q.2) ∧
      ∀ p ∈ unseen lower ps tried, keyOf lower p.1 p.2 ∉ tried := by
  induction ps with
  | nil => intro tried; simp [unseen]
  | cons p rest ih =>
    intro tried
    by_cases h : keyOf lower p.1 p.2 ∈ tried
    · simpa [unseen, h] using ih tried
    · obtain ⟨hpw, hnot⟩ := ih (tried ++ [keyOf lower p.1 p.2])
      simp only [unseen, h, if_false]
      refine ⟨List.pairwise_cons.2 ⟨?_, hpw⟩, ?_⟩
      · intro q hq heq
        exact hnot q hq (by simp [heq])
      · intro q hq
        rcases List.mem_cons.1 hq with rfl | hq
        · exact h
        · intro hin
          exact hnot q hq (by simp [hin])

/-! ## The Genius pass -/

theorem tryFetchFromGenius_of_miss (genius : Genius) (query : JSString)
    (h : GeniusMiss genius query) : tryFetchFromGenius genius query = none := by
  unfold tryFetchFromGenius
  by_cases hw : isWellFormed query = true
  · simp only [hw, Bool.not_true, Bool.false_eq_true, if_false]
    rcases h with h | h | h | h | ⟨link, hs, h⟩
    · rw [hw] at h; cases h
    · rw [h]
    · rw [h]
    · rw [h]
    · rw [hs]
      cases link with
      | nil => rfl
      | cons c link =>
        rcases h with h | ⟨lyricsText, containerText, hp, h1, h2⟩
        · simp only [h]
        · simp only [hp, h1, h2]
  · have hw1 : isWellFormed query = false := by simpa using hw
    simp [hw1]

theorem geniusArtists_exhaust (genius : Genius) (t : JSString) (artists : List JSString)
    (h : ∀ a ∈ artists, GeniusMiss genius (t ++ [code ' '] ++ a)) :
    ∀ log, geniusArtists genius t artists log = (none, log ++ artists.map fun a => (t, a)) := by
  induction artists with
  | nil => intro log; simp [geniusArtists]
  | cons a rest ih =>
    intro log
    have hm := tryFetchFromGenius_of_miss genius _ (h a (List.mem_cons_self _ _))
    have hrec := ih (fun b hb => h b (List.mem_cons_of_mem _ hb))
    rw [geniusArtists, hm]
    simp [hrec]

theorem geniusTitles_exhaust (genius : Genius) (artists titles : List JSString)
    (h : ∀ t ∈ titles, ∀ a ∈ artists, GeniusMiss genius (t ++ [code ' '] ++ a)) :
    ∀ log, geniusTitles genius artists titles log = (none, log ++ pairsOf titles artists) := by
  induction titles with
  | nil => intro log; simp [geniusTitles, pairsOf]
  | cons t rest ih =>
    intro log
    rw [geniusTitles, geniusArtists_exhaust genius t artists (h t (List.mem_cons_self _ _))]
    simp [ih (fun u hu => h u (List.mem_cons_of_mem _ hu)), pairsOf]

/-! ## Runs of `fetchLyrics` -/

theorem fetchLyrics_of_lrclib_hit (lower : JSString → JSString) (lrclib : Lrclib)
    (genius : Genius) (title artist : JSString) (lyrics : JSString)
    (h : (lrclibFlat lower lrclib
      (pairsOf (titleVariants title) (artistVariants artist)) ⟨[], []⟩).1 = .returns lyrics) :
    (fetchLyrics lower lrclib genius title (some artist)).outcome = .returned (some lyrics) ∧
    (fetchLyrics lower lrclib genius title (some artist)).lrclibProbes =
      (lrclibFlat lower lrclib
        (pairsOf (titleVariants title) (artistVariants artist)) ⟨[], []⟩).2.probes ∧
    (fetchLyrics lower lrclib genius title (some artist)).geniusProbes = [] := by
  simp only [fetchLyrics, lrclibTitles_eq_flat]
  cases hf : lrclibFlat lower lrclib
      (pairsOf (titleVariants title) (artistVariants artist)) ⟨[], []⟩ with
  | mk exit tr =>
    rw [hf] at h
    simp only at h
    subst h
    exact ⟨rfl, rfl, rfl⟩

theorem fetchLyrics_of_lrclib_throw (lower : JSString → JSString) (lrclib : Lrclib)
    (genius : Genius) (title artist : JSString) (e : JsError)
    (h : (lrclibFlat lower lrclib
      (pairsOf (titleVariants title) (artistVariants artist)) ⟨[], []⟩).1 = .throws e) :
    (fetchLyrics lower lrclib genius title (some artist)).outcome = .threw e ∧
    (fetchLyrics lower lrclib genius title (some artist)).lrclibProbes =
      (lrclibFlat lower lrclib
        (pairsOf (titleVariants title) (artistVariants artist)) ⟨[], []⟩).2.probes ∧
    (fetchLyrics lower lrclib genius title (some artist)).geniusProbes = [] := by
  simp only [fetchLyrics, lrclibTitles_eq_flat]
  cases hf : lrclibFlat lower lrclib
      (pairsOf (titleVariants title) (artistVariants artist)) ⟨[], []⟩ with
  | mk exit tr =>
    rw [hf] at h
    simp only at h
    subst h
    exact ⟨rfl, rfl, rfl⟩

theorem fetchLyrics_of_lrclib_none (lower : JSString → JSString) (lrclib : Lrclib)
    (genius : Genius) (title artist : JSString)
    (h : (lrclibFlat lower lrclib
      (pairsOf (titleVariants title) (artistVariants artist)) ⟨[], []⟩).1 = .finished) :
    (fetchLyrics lower lrclib genius title (some artist)).outcome =
      .returned (geniusTitles genius (artistVariants artist) (titleVariants title) []).1 ∧
    (fetchLyrics lower lrclib genius title (some artist)).lrclibProbes =
      (lrclibFlat lower lrclib
        (pairsOf (titleVariants title) (artistVariants artist)) ⟨[], []⟩).2.probes ∧
    (fetchLyrics lower lrclib genius title (some artist)).geniusProbes =
      (geniusTitles genius (artistVariants artist) (titleVariants title) []).2 := by
  simp only [fetchLyrics, lrclibTitles_eq_flat]
  cases hf : lrclibFlat lower lrclib
      (pairsOf (titleVariants title) (artistVariants artist)) ⟨[], []⟩ with
  | mk exit tr =>
    rw [hf] at h
    simp only at h
    subst h
    cases hg : geniusTitles genius (artistVariants artist) (titleVariants title) [] with
    | mk lyrics log =>
      cases lyrics with
      | none => exact ⟨rfl, rfl, rfl⟩
      | some l => exact ⟨rfl, rfl, rfl⟩

theorem fetchLyrics_lrclibProbes (lower : JSString → JSString) (lrclib : Lrclib)
    (genius : Genius) (title artist : JSString) :
    (fetchLyrics lower lrclib genius title (some artist)).lrclibProbes =
      (lrclibFlat lower lrclib
        (pairsOf (titleVariants title) (artistVariants artist)) ⟨[], []⟩).2.probes := by
  cases h : (lrclibFlat lower lrclib
      (pairsOf (titleVariants title) (artistVariants artist)) ⟨[], []⟩).1 with
  | finished => exact (fetchLyrics_of_lrclib_none lower lrclib genius title artist h).2.1
  | returns lyrics =>
    exact (fetchLyrics_of_lrclib_hit lower lrclib genius title artist lyrics h).2.1
  | throws e => exact (fetchLyrics_of_lrclib_throw lower lrclib genius title artist e h).2.1

/-- When every query variant can be URI-encoded and its lrclib query finds nothing, and
every Genius query that the loops build finds nothing, the run returns `null`, the lrclib
pass queries the query variants and the Genius pass queries all pairs of the two loops. -/
theorem fetchLyrics_exhausted_probed (lower : JSString → JSString) (lrclib : Lrclib)
    (genius : Genius) (title artist : JSString)
    (hl : ∀ q ∈ queryVariants lower title artist,
      encodable q = true ∧ LrclibMiss (lrclib q.1 q.2))
    (hg : ∀ t ∈ titleVariants title, ∀ a ∈ artistVariants artist,
      GeniusMiss genius (t ++ [code ' '] ++ a)) :
    (fetchLyrics lower lrclib genius title (some artist)).outcome = .returned none ∧
    (fetchLyrics lower lrclib genius title (some artist)).lrclibProbes =
      queryVariants lower title artist ∧
    (fetchLyrics lower lrclib genius title (some artist)).geniusProbes =
      pairsOf (titleVariants title) (artistVariants artist) := by
  have hx := lrclibFlat_exhaust lower lrclib
    (pairsOf (titleVariants title) (artistVariants artist)) ⟨[], []⟩
    (fun p hp => ⟨(hl p hp).1, lrclibAttempt_of_miss _ (hl p hp).2⟩)
  obtain ⟨ho, hp, hgp⟩ := fetchLyrics_of_lrclib_none lower lrclib genius title artist hx.1
  rw [geniusTitles_exhaust genius _ _ hg] at ho hgp
  refine ⟨ho, ?_, by simpa using hgp⟩
  rw [hp, hx.2]
  simp [queryVariants]

/-! ## Code units that survive a replacement -/

theorem mem_replaceGo (matchAt : JSString → Option Nat) (rep : JSString) (a : Nat)
    (s : JSString) :
    ∀ skip, a ∈ replaceGo matchAt rep skip s → a ∈ rep ∨ a ∈ s := by
  induction s with
  | nil => intro skip h; cases skip <;> simp [replaceGo] at h
  | cons x xs ih =>
    intro skip h
    cases skip with
    | succ k =>
      simp only [replaceGo] at h
      rcases ih k h with h1 | h1
      · exact Or.inl h1
      · exact Or.inr (List.mem_cons_of_mem _ h1)
    | zero =>
      simp only [replaceGo] at h
      cases hm : matchAt (x :: xs) with
      | none =>
        simp only [hm, List.mem_cons] at h
        rcases h with h | h
        · exact Or.inr (h ▸ List.mem_cons_self _ _)
        · rcases ih 0 h with h1 | h1
          · exact Or.inl h1
          · exact Or.inr (List.mem_cons_of_mem _ h1)
      | some n =>
        cases n with
        | zero =>
          simp only [hm, List.mem_cons] at h
          rcases h with h | h
          · exact Or.inr (h ▸ List.mem_cons_self _ _)
          · rcases ih 0 h with h1 | h1
            · exact Or.inl h1
            · exact Or.inr (List.mem_cons_of_mem _ h1)
        | succ k =>
          simp only [hm, List.mem_append] at h
          rcases h with h | h
          · exact Or.inl h
          · rcases ih k h with h1 | h1
            · exact Or.inl h1
            · exact Or.inr (List.mem_cons_of_mem _ h1)

theorem replaceAll_classAt (p : Nat → Bool) (a : Nat) (s : JSString)
    (h : a ∈ replaceAll (classAt p) [] s) : p a = false := by
  unfold replaceAll at h
  induction s with
  | nil => simp [replaceGo] at h
  | cons x xs ih =>
    by_cases hx : p x = true
    · simp only [replaceGo, classAt, hx, if_true, List.nil_append] at h
      exact ih h
    · have h1 : a = x ∨ a ∈ replaceGo (classAt p) [] 0 xs := by
        simpa [replaceGo, classAt, hx] using h
      rcases h1 with h1 | h1
      · rw [h1]
        simpa using hx
      · exact ih h1

theorem mem_trim (a : Nat) (s : JSString) (h : a ∈ trim s) : a ∈ s := by
  unfold trim at h
  rw [List.mem_reverse] at h
  have h1 := (List.dropWhile_sublist isSpace).subset h
  rw [List.mem_reverse] at h1
  exact (List.dropWhile_sublist isSpace).subset h1

theorem isWellFormed_of_no_surrogate (s : JSString)
    (h : ∀ u ∈ s, u < 0xD800 ∨ 0xDFFF < u) : isWellFormed s = true := by
  induction s with
  | nil => rfl
  | cons x xs ih =>
    have hx := h x (List.mem_cons_self _ _)
    have hxs := ih (fun u hu => h u (List.mem_cons_of_mem _ hu))
    cases xs with
    | nil =>
      simp only [isWellFormed, Bool.not_eq_true', Bool.and_eq_false_iff,
        decide_eq_false_iff_not]
      omega
    | cons y rest =>
      have h1 : (decide (0xD800 ≤ x) && decide (x ≤ 0xDBFF)) = false := by
        simp only [Bool.and_eq_false_iff, decide_eq_false_iff_not]
        omega
      have h2 : (decide (0xDC00 ≤ x) && decide (x ≤ 0xDFFF)) = false := by
        simp only [Bool.and_eq_false_iff, decide_eq_false_iff_not]
        omega
      simp only [isWellFormed, h1, h2, hxs, Bool.false_eq_true, if_false, Bool.not_false,
        Bool.and_self]

theorem cleanTitle_wellFormed (title : JSString) : isWellFormed (cleanTitle title) = true := by
  apply isWellFormed_of_no_surrogate
  intro u hu
  unfold cleanTitle at hu
  rcases mem_replaceGo _ _ _ _ 0 (mem_trim _ _ hu) with h1 | h1
  · have : u = code ' ' := by simpa using h1
    rw [this]
    decide
  · have h2 := replaceAll_classAt _ _ _ h1
    simp only [isAlnum, isSpace, Bool.not_eq_false', Bool.or_eq_true, Bool.and_eq_true,
      decide_eq_true_eq] at h2
    omega

/-! ## Short-circuit, exhaustion and the seen-set -/

theorem not_reachableHit_none (synced plain : Option JSString) :
    ¬ ReachableHit none synced plain := by
  rintro ⟨res, before, after, hr, _⟩
  cases hr

/-- The first query variant whose response is a reachable hit decides the run, when the
variants up to it can be URI-encoded. -/
theorem fetchLyrics_of_first_reachable (lower : JSString → JSString) (lrclib : Lrclib)
    (genius : Genius) (title artist : JSString)
    (before after : List (JSString × JSString)) (t a : JSString)
    (synced plain : Option JSString)
    (hq : queryVariants lower title artist = before ++ (t, a) :: after)
    (henc : ∀ q ∈ before ++ [(t, a)], encodable q = true)
    (hbefore : ∀ q ∈ before, ∀ s p, ¬ ReachableHit (lrclib q.1 q.2) s p)
    (hit : ReachableHit (lrclib t a) synced plain) :
    (fetchLyrics lower lrclib genius title (some artist)).outcome =
      .returned (some (lyricsOfHit synced plain)) ∧
    (fetchLyrics lower lrclib genius title (some artist)).lrclibProbes = before ++ [(t, a)] ∧
    (fetchLyrics lower lrclib genius title (some artist)).geniusProbes = [] := by
  have hmiss : ∀ q ∈ before, encodable q = true ∧
      ∀ l, lrclibAttempt (lrclib q.1 q.2) ≠ .ok (some l) := by
    intro q hq
    refine ⟨henc q (List.mem_append_left _ hq), ?_⟩
    intro l hl
    obtain ⟨s, p, hr, _⟩ := reachable_of_lrclibAttempt _ l hl
    exact hbefore q hq s p hr
  have hx := lrclibFlat_first_hit lower lrclib
    (pairsOf (titleVariants title) (artistVariants artist)) ⟨[], []⟩ before after (t, a)
    (lyricsOfHit synced plain) hq hmiss (henc (t, a) (by simp))
    (lrclibAttempt_of_reachable _ _ _ hit)
  obtain ⟨ho, hp, hg⟩ := fetchLyrics_of_lrclib_hit lower lrclib genius title artist _ hx.1
  refine ⟨ho, ?_, hg⟩
  rw [hp, hx.2]
  simp

/-- C1, as the code has it.  Call a response a reachable hit when it is an ok JSON array
whose first entry with a non-empty `syncedLyrics` or `plainLyrics` has no `null` entry
before it.  If `(t, a)` is the first query variant, in row-major order, whose response is
a reachable hit, and the query variants up to and including `(t, a)` hold no lone
surrogate, then `fetchLyrics` returns the lyrics built from that entry, the lrclib queries
issued are exactly the variants up to and including `(t, a)`, and Genius is never
queried. -/
theorem fetchLyrics_first_hit (lower : JSString → JSString) (lrclib : Lrclib)
    (genius : Genius) (title artist : JSString)
    (before after : List (JSString × JSString)) (t a : JSString)
    (synced plain : Option JSString)
    (hq : queryVariants lower title artist = before ++ (t, a) :: after)
    (henc : ∀ q ∈ before ++ [(t, a)], encodable q = true)
    (hbefore : ∀ q ∈ before, ∀ s p, ¬ ReachableHit (lrclib q.1 q.2) s p)
    (hit : ReachableHit (lrclib t a) synced plain) :
    (fetchLyrics lower lrclib genius title (some artist)).outcome =
      .returned (some (lyricsOfHit synced plain)) ∧
    (fetchLyrics lower lrclib genius title (some artist)).lrclibProbes = before ++ [(t, a)] ∧
    (fetchLyrics lower lrclib genius title (some artist)).geniusProbes = [] :=
  fetchLyrics_of_first_reachable lower lrclib genius title artist before after t a synced plain
    hq henc hbefore hit

/-- C2 fails on the code.  For the title `x` and an artist that is the lone surrogate
U+D800, whatever the providers answer, `encodeURIComponent` of line 198 throws a
`URIError` outside the `try`: `fetchLyrics` throws before the first query instead of
returning `null`. -/
theorem fetchLyrics_lone_surrogate_throws (lower : JSString → JSString) (lrclib : Lrclib)
    (genius : Genius) :
    (fetchLyrics lower lrclib genius (utf16 "x") (some [0xD800])).outcome =
      .threw .uriError ∧
    (fetchLyrics lower lrclib genius (utf16 "x") (some [0xD800])).lrclibProbes = [] ∧
    (fetchLyrics lower lrclib genius (utf16 "x") (some [0xD800])).geniusProbes = [] := by
  have hp : pairsOf (titleVariants (utf16 "x")) (artistVariants [0xD800]) =
      [(utf16 "x", [0xD800]), (utf16 "x", [])] := by decide
  have hx := lrclibFlat_throw lower lrclib (utf16 "x", [0xD800]) [(utf16 "x", [])] ⟨[], []⟩
    (by simp) (by decide)
  rw [← hp] at hx
  have hthrow := fetchLyrics_of_lrclib_throw lower lrclib genius (utf16 "x") [0xD800]
    .uriError (by rw [hx])
  refine ⟨hthrow.1, ?_, hthrow.2.2⟩
  rw [hthrow.2.1, hx]

/-- C4.  Whatever the providers answer, no two lrclib queries of a run, at different
positions, agree in the lower-cased title and in the lower-cased artist. -/
theorem lrclibProbes_distinct (lower : JSString → JSString) (lrclib : Lrclib)
    (genius : Genius) (title artist : JSString) (i j : Nat) (t1 a1 t2 a2 : JSString)
    (hi : (fetchLyrics lower lrclib genius title (some artist)).lrclibProbes[i]? =
      some (t1, a1))
    (hj : (fetchLyrics lower lrclib genius title (some artist)).lrclibProbes[j]? =
      some (t2, a2))
    (hij : i ≠ j) :
    ¬ (lower t1 = lower t2 ∧ lower a1 = lower a2) := by
  obtain ⟨done, hpre, hdone⟩ := lrclibFlat_probes lower lrclib
    (pairsOf (titleVariants title) (artistVariants artist)) ⟨[], []⟩
  have hpw : (fetchLyrics lower lrclib genius title (some artist)).lrclibProbes.Pairwise
      (fun p q => keyOf lower p.1 p.2 ≠ keyOf lower q.1 q.2) := by
    rw [fetchLyrics_lrclibProbes, hdone]
    simpa using (unseen_pairwise lower _ []).1.sublist hpre.sublist
  rw [List.pairwise_iff_getElem] at hpw
  obtain ⟨hi1, hi2⟩ := List.getElem?_eq_some.1 hi
  obtain ⟨hj1, hj2⟩ := List.getElem?_eq_some.1 hj
  rintro ⟨ht, ha⟩
  rcases Nat.lt_or_gt_of_ne hij with hlt | hgt
  · have := hpw i j hi1 hj1 hlt
    rw [hi2, hj2] at this
    exact this (by simp [keyOf, ht, ha])
  · have := hpw j i hj1 hi1 hgt
    rw [hi2, hj2] at this
    exact this (by simp [keyOf, ht, ha])

/-- C8 fails on the code.  With the artist absent, `fetchLyrics` prints the warning and
then throws a `TypeError` at `artist.trim()`, before any query is issued. -/
theorem fetchLyrics_absent_artist_throws (lower : JSString → JSString) (lrclib : Lrclib)
    (genius : Genius) (title : JSString) :
    fetchLyrics lower lrclib genius title none = ⟨.threw .typeError, true, [], []⟩ := rfl

theorem titleVariants_cons (title : JSString) :
    ∃ rest, titleVariants title = cleanTitle title :: rest := by
  obtain ⟨more, hm⟩ := addAll_isPrefix (titleCandidates title).tail [cleanTitle title]
  exact ⟨more, hm⟩

theorem artistVariants_ne_nil (artist : JSString) : artistVariants artist ≠ [] := by
  have h : cleanArtist (trim artist) ∈ artistVariants artist :=
    (mem_arrayFromSet _ _).2 (by simp [artistCandidates])
  exact List.ne_nil_of_mem h

theorem queryVariants_cons (lower : JSString → JSString) (title artist : JSString) :
    ∃ a others after, artistVariants artist = a :: others ∧
      queryVariants lower title artist = (cleanTitle title, a) :: after := by
  obtain ⟨ts, ht⟩ := titleVariants_cons title
  obtain ⟨a, as, ha⟩ := List.exists_cons_of_ne_nil (artistVariants_ne_nil artist)
  refine ⟨a, as, ?_⟩
  simp [queryVariants, ht, ha, pairsOf, unseen]

theorem saveLyricsExt_unsynced (plain : JSString) :
    saveLyricsExt (unsyncedMarker ++ plain) = utf16 ".lrc" := by
  have hm : unsyncedMarker = code '[' :: utf16 "UNSYNCED LYRICS]\n\n" := by decide
  have hi : includes (unsyncedMarker ++ plain) [code '['] = true := by
    rw [hm, List.cons_append, includes]
    simp [List.isPrefixOf]
  simp only [saveLyricsExt, hi, if_true]

/-- C3 fails on the code.  When lrclib answers with one entry that has non-empty
`plainLyrics` and no `syncedLyrics`, and the first artist variant holds no lone surrogate,
`fetchLyrics` returns the plain lyrics behind the marker `[UNSYNCED LYRICS]`; the marker
itself contains `[`, so `saveLyrics` takes the text for synced lyrics and chooses `.lrc`,
never `.txt`. -/
theorem plain_lyrics_saved_as_lrc (lower : JSString → JSString) (genius : Genius)
    (title artist : JSString) (c : Nat) (plain : JSString)
    (henc : ∀ a others, artistVariants artist = a :: others → isWellFormed a = true) :
    (fetchLyrics lower (constLrclib (jsonArray [Entry.value none (some (c :: plain))]))
      genius title (some artist)).outcome = .returned (some (unsyncedMarker ++ c :: plain)) ∧
    saveLyricsExt (unsyncedMarker ++ c :: plain) = utf16 ".lrc" := by
  refine ⟨?_, saveLyricsExt_unsynced _⟩
  obtain ⟨a, others, after, ha, hq⟩ := queryVariants_cons lower title artist
  have hit : ReachableHit
      (constLrclib (jsonArray [Entry.value none (some (c :: plain))]) (cleanTitle title) a)
      none (some (c :: plain)) :=
    ⟨_, [], [], rfl, rfl, rfl, by simp, rfl⟩
  have hw : ∀ q ∈ [] ++ [(cleanTitle title, a)], encodable q = true := by
    intro q hq1
    simp only [List.nil_append, List.mem_singleton] at hq1
    subst hq1
    simp [encodable, cleanTitle_wellFormed, henc a others ha]
  exact (fetchLyrics_of_first_reachable lower _ genius title artist [] after (cleanTitle title)
    a none (some (c :: plain)) hq hw (by simp) hit).1

/-- C5 fails on the code.  For the title `x` and the artist `A, a`, with no query finding
lyrics, the lrclib pass skips the pairs whose lower-cased key was seen and issues 7
queries, while the Genius pass has no seen-set and issues all 12. -/
theorem genius_pass_ignores_seen_set :
    (fetchLyrics toLowerCase (constLrclib none) noGenius (utf16 "x")
      (some (utf16 "A, a"))).outcome = .returned none ∧
    (fetchLyrics toLowerCase (constLrclib none) noGenius (utf16 "x")
      (some (utf16 "A, a"))).lrclibProbes.take 2 =
        [(utf16 "x", utf16 "A"), (utf16 "x", utf16 "A, a")] ∧
    (fetchLyrics toLowerCase (constLrclib none) noGenius (utf16 "x")
      (some (utf16 "A, a"))).geniusProbes.take 2 =
        [(utf16 "x", utf16 "A"), (utf16 "x", utf16 "a")] ∧
    (fetchLyrics toLowerCase (constLrclib none) noGenius (utf16 "x")
      (some (utf16 "A, a"))).lrclibProbes.length = 7 ∧
    (fetchLyrics toLowerCase (constLrclib none) noGenius (utf16 "x")
      (some (utf16 "A, a"))).geniusProbes.length = 12 := by
  decide

/-! ## The empty artist -/

theorem addAll_nodup {α : Type} [DecidableEq α] (xs : List α) :
    ∀ set : List α, set.Nodup → (addAll set xs).Nodup := by
  induction xs with
  | nil => intro set h; simpa [addAll_nil] using h
  | cons x xs ih =>
    intro set h
    rw [addAll_cons]
    by_cases hx : x ∈ set
    · simpa [hx] using ih set h
    · simp only [hx, if_false]
      apply ih
      rw [List.nodup_append]
      exact ⟨h, List.nodup_singleton x, by
        intro a ha hb
        rw [List.mem_singleton] at hb
        exact hx (hb ▸ ha)⟩

theorem arrayFromSet_nodup {α : Type} [DecidableEq α] (xs : List α) :
    (arrayFromSet xs).Nodup :=
  addAll_nodup xs [] List.nodup_nil

theorem keepFirstBy_eq_self {α β : Type} [DecidableEq β] (f : α → β) (l : List α)
    (hn : l.Nodup) (hinj : ∀ x ∈ l, ∀ y ∈ l, f x = f y → x = y) : keepFirstBy f l = l := by
  induction l with
  | nil => rfl
  | cons x xs ih =>
    have hx := List.nodup_cons.1 hn
    rw [keepFirstBy, ih hx.2 (fun a ha b hb => hinj a (List.mem_cons_of_mem _ ha) b
      (List.mem_cons_of_mem _ hb))]
    congr 1
    rw [List.filter_eq_self]
    intro y hy
    have : f y ≠ f x := fun h =>
      hx.1 ((hinj y (List.mem_cons_of_mem _ hy) x (List.mem_cons_self _ _) h) ▸ hy)
    simpa using this

theorem keyOf_empty_artist_inj (lower : JSString → JSString) (t1 t2 : JSString) :
    keyOf lower t1 [] = keyOf lower t2 [] ↔ lower t1 = lower t2 := by
  simp [keyOf]

theorem unseen_empty_artist (lower : JSString → JSString) (titles : List JSString) :
    ∀ tried, unseen lower (titles.map fun t => (t, [])) tried =
      ((keepFirstBy lower titles).filter fun t => decide (keyOf lower t [] ∉ tried)).map
        fun t => (t, []) := by
  induction titles with
  | nil => intro tried; rfl
  | cons t rest ih =>
    intro tried
    by_cases h : keyOf lower t [] ∈ tried
    · simp only [List.map_cons, unseen, h, if_true, keepFirstBy, List.filter_cons,
        decide_not, decide_True, Bool.not_true, Bool.false_eq_true, if_false, ih,
        List.filter_filter]
      congr 1
      apply List.filter_congr
      intro y _
      by_cases hy : keyOf lower y [] ∈ tried
      · simp [hy]
      · have : lower y ≠ lower t := fun e =>
          hy (((keyOf_empty_artist_inj lower y t).2 e) ▸ h)
        simp [hy, this]
    · simp only [List.map_cons, unseen, h, if_false, keepFirstBy, List.filter_cons,
        decide_not, decide_False, Bool.not_false, if_true, ih, List.filter_filter,
        List.map_cons]
      congr 2
      apply List.filter_congr
      intro y _
      simp only [List.mem_append, List.mem_singleton, keyOf_empty_artist_inj, not_or]
      by_cases hy : keyOf lower y [] ∈ tried <;> by_cases hy2 : lower y = lower t <;>
        simp [hy, hy2]

theorem pairsOf_empty_artist (titles : List JSString) :
    pairsOf titles [[]] = titles.map fun t => (t, []) := by
  induction titles with
  | nil => rfl
  | cons t rest ih =>
    have : pairsOf (t :: rest) [[]] = (t, []) :: pairsOf rest [[]] := rfl
    rw [this, ih]
    rfl

theorem queryVariants_empty_artist (lower : JSString → JSString) (title : JSString) :
    queryVariants lower title [] =
      (keepFirstBy lower (titleVariants title)).map (fun t => (t, [])) := by
  have hav : artistVariants [] = [[]] := by decide
  simp [queryVariants, hav, pairsOf_empty_artist, unseen_empty_artist]

/-- C9, as the code has it.  With the artist `""` the token list is empty and the artist
variants are `[""]`.  When the query variants of the run hold no lone surrogate and none
of their lrclib queries finds lyrics, the queries are non-empty and are the pairs `(t, "")`
for the title variants `t` whose lower-cased form differs from that of every earlier title
variant, in title-variant order; they are all the title variants when `toLowerCase` keeps
the title variants apart. -/
theorem empty_artist_queries (lower : JSString → JSString) (lrclib : Lrclib)
    (genius : Genius) (title : JSString)
    (hl : ∀ q ∈ queryVariants lower title [],
      isWellFormed q.1 = true ∧ LrclibMiss (lrclib q.1 q.2)) :
    artistTokens (trim []) = [] ∧
    artistVariants [] = [[]] ∧
    (fetchLyrics lower lrclib genius title (some [])).lrclibProbes ≠ [] ∧
    (fetchLyrics lower lrclib genius title (some [])).lrclibProbes =
      (keepFirstBy lower (titleVariants title)).map (fun t => (t, [])) ∧
    ((∀ t1 ∈ titleVariants title, ∀ t2 ∈ titleVariants title, lower t1 = lower t2 → t1 = t2) →
      (fetchLyrics lower lrclib genius title (some [])).lrclibProbes =
        (titleVariants title).map (fun t => (t, []))) := by
  have hav : artistVariants [] = [[]] := by decide
  have hx := lrclibFlat_exhaust lower lrclib
    (pairsOf (titleVariants title) (artistVariants [])) ⟨[], []⟩
    (fun p hp => by
      have hp1 : p ∈ queryVariants lower title [] := hp
      have h2 : p.2 = [] := by
        rw [queryVariants_empty_artist] at hp1
        obtain ⟨t, _, rfl⟩ := List.mem_map.1 hp1
        rfl
      refine ⟨?_, lrclibAttempt_of_miss _ (hl p hp1).2⟩
      simp [encodable, (hl p hp1).1, h2, isWellFormed])
  have hp : (fetchLyrics lower lrclib genius title (some [])).lrclibProbes =
      (keepFirstBy lower (titleVariants title)).map (fun t => (t, [])) := by
    rw [fetchLyrics_lrclibProbes, hx.2, ← queryVariants_empty_artist]
    simp [queryVariants]
  refine ⟨by decide, hav, ?_, hp, ?_⟩
  · rw [hp]
    obtain ⟨rest, hr⟩ := titleVariants_cons title
    simp [hr, keepFirstBy]
  · intro hinj
    have hn : (titleVariants title).Nodup := arrayFromSet_nodup _
    rw [hp, keepFirstBy_eq_self lower (titleVariants title) hn hinj]

/-! ## The artist variants -/

theorem comma_not_mem_cleanArtist (artist : JSString) : (code ',') ∉ cleanArtist artist := by
  intro h
  unfold cleanArtist at h
  rcases mem_replaceGo _ _ _ _ 0 (mem_trim _ _ h) with h1 | h1
  · exact absurd (List.mem_singleton.1 h1) (by decide)
  · have := replaceAll_classAt _ _ _ h1
    revert this
    decide

theorem comma_mem_join (x y : JSString) (rest : List JSString) :
    (code ',') ∈ join (utf16 ", ") (x :: y :: rest) := by
  have h : code ',' ∈ utf16 ", " := by decide
  simp [join, h]

theorem comma_mem_join_of_length (tokens : List JSString) (h : 2 ≤ tokens.length) :
    (code ',') ∈ join (utf16 ", ") tokens := by
  match tokens, h with
  | x :: y :: rest, _ => exact comma_mem_join x y rest

/-- C7, as the code has it.  For an artist that splits into at least two tokens the artist
variants contain every token, the tokens joined with `", "` in original and in reversed
order, and `cleanArtist(rawArtist)`.  The original-order join comes before the entry equal
to the cleaned string unless that string is one of the tokens; the reversed join comes
before it unless the cleaned string is one of the tokens or one of the original-order joins
with two spaces, one space or nothing. -/
theorem artistVariants_joins (artist : JSString)
    (h2 : 2 ≤ (artistTokens (trim artist)).length) :
    (∀ tok ∈ artistTokens (trim artist), tok ∈ artistVariants artist) ∧
    join (utf16 ", ") (artistTokens (trim artist)) ∈ artistVariants artist ∧
    join (utf16 ", ") (artistTokens (trim artist)).reverse ∈ artistVariants artist ∧
    cleanArtist (trim artist) ∈ artistVariants artist ∧
    (cleanArtist (trim artist) ∉ artistTokens (trim artist) →
      indexOf (join (utf16 ", ") (artistTokens (trim artist))) (artistVariants artist) <
        indexOf (cleanArtist (trim artist)) (artistVariants artist)) ∧
    (cleanArtist (trim artist) ∉ artistTokens (trim artist) ++
        [join (utf16 "  ") (artistTokens (trim artist)),
         join (utf16 " ") (artistTokens (trim artist)),
         join [] (artistTokens (trim artist))] →
      indexOf (join (utf16 ", ") (artistTokens (trim artist)).reverse) (artistVariants artist) <
        indexOf (cleanArtist (trim artist)) (artistVariants artist)) := by
  have hne1 : cleanArtist (trim artist) ≠ join (utf16 ", ") (artistTokens (trim artist)) :=
    fun e => comma_not_mem_cleanArtist _ (e ▸ comma_mem_join_of_length _ h2)
  have hne2 : cleanArtist (trim artist) ≠
      join (utf16 ", ") (artistTokens (trim artist)).reverse :=
    fun e => comma_not_mem_cleanArtist _
      (e ▸ comma_mem_join_of_length _ (by simpa using h2))
  refine ⟨?_, ?_, ?_, ?_, ?_, ?_⟩
  · intro tok htok
    exact (mem_arrayFromSet _ _).2 (by simp [artistCandidates, htok])
  · exact (mem_arrayFromSet _ _).2 (by simp [artistCandidates])
  · exact (mem_arrayFromSet _ _).2 (by simp [artistCandidates])
  · exact (mem_arrayFromSet _ _).2 (by simp [artistCandidates])
  · intro hnot
    have hsplit : artistCandidates artist =
        (artistTokens (trim artist) ++ [join (utf16 ", ") (artistTokens (trim artist))]) ++
        [ join (utf16 "  ") (artistTokens (trim artist)),
          join (utf16 " ") (artistTokens (trim artist)),
          join [] (artistTokens (trim artist)),
          join (utf16 ", ") (artistTokens (trim artist)).reverse,
          join (utf16 "  ") (artistTokens (trim artist)).reverse,
          join (utf16 " ") (artistTokens (trim artist)).reverse,
          join [] (artistTokens (trim artist)).reverse,
          join (utf16 ", ") (splitOnChar (code ' ') [] artist),
          join (utf16 ", ") (splitOnChar (code ' ') [] artist).reverse,
          cleanArtist (trim artist) ] := by
      simp [artistCandidates]
    unfold artistVariants
    rw [hsplit]
    apply indexOf_arrayFromSet_lt
    · simp
    · simp only [List.mem_append, List.mem_singleton, not_or]
      exact ⟨hnot, hne1⟩
  · intro hnot
    have hsplit : artistCandidates artist =
        (artistTokens (trim artist) ++
          [ join (utf16 ", ") (artistTokens (trim artist)),
            join (utf16 "  ") (artistTokens (trim artist)),
            join (utf16 " ") (artistTokens (trim artist)),
            join [] (artistTokens (trim artist)),
            join (utf16 ", ") (artistTokens (trim artist)).reverse ]) ++
        [ join (utf16 "  ") (artistTokens (trim artist)).reverse,
          join (utf16 " ") (artistTokens (trim artist)).reverse,
          join [] (artistTokens (trim artist)).reverse,
          join (utf16 ", ") (splitOnChar (code ' ') [] artist),
          join (utf16 ", ") (splitOnChar (code ' ') [] artist).reverse,
          cleanArtist (trim artist) ] := by
      simp [artistCandidates]
    unfold artistVariants
    rw [hsplit]
    apply indexOf_arrayFromSet_lt
    · simp
    · simp only [List.mem_append, List.mem_cons, List.mem_singleton, List.not_mem_nil,
        or_false, not_or] at hnot ⊢
      exact ⟨hnot.1, hne1, hnot.2.1, hnot.2.2.1, hnot.2.2.2, hne2⟩

/-- C7 fails as stated, on its own example: for `A, B` the cleaned string is `A B`, which is
also the one-space join at index 4, while the reversed join `B, A` sits at index 6. -/
theorem reversed_join_after_clean :
    artistTokens (trim (utf16 "A, B")) = [(utf16 "A"), (utf16 "B")] ∧
    cleanArtist (trim (utf16 "A, B")) = utf16 "A B" ∧
    indexOf (cleanArtist (trim (utf16 "A, B"))) (artistVariants (utf16 "A, B")) = 4 ∧
    indexOf (join (utf16 ", ") (artistTokens (trim (utf16 "A, B"))).reverse)
      (artistVariants (utf16 "A, B")) = 6 := by
  decide

/-- For the artist `A, B` the join `A, B` is at an earlier index than the cleaned string
`A B`. -/
theorem artistVariants_joins_witness :
    indexOf (join (utf16 ", ") (artistTokens (trim (utf16 "A, B"))))
        (artistVariants (utf16 "A, B")) <
      indexOf (cleanArtist (trim (utf16 "A, B"))) (artistVariants (utf16 "A, B")) :=
  (artistVariants_joins (utf16 "A, B") (by decide)).2.2.2.2.1 (by decide)

/-! ## Concrete runs -/

/-- C1 fails as stated.  The response to the only query `(x, y)` is an ok JSON array that
contains an entry with non-empty `plainLyrics`, behind a `null` entry: `find` throws on the
`null`, the error is caught, Genius is queried, and `fetchLyrics` returns `null`. -/
theorem null_entry_hides_lyrics :
    (fetchLyrics toLowerCase
      (constLrclib (jsonArray [Entry.null, Entry.value none (some (utf16 "la"))])) noGenius
      (utf16 "x") (some (utf16 "y"))).lrclibProbes = [(utf16 "x", utf16 "y")] ∧
    hasLyricsEntry
      (constLrclib (jsonArray [Entry.null, Entry.value none (some (utf16 "la"))])
        (utf16 "x") (utf16 "y")) = true ∧
    (fetchLyrics toLowerCase
      (constLrclib (jsonArray [Entry.null, Entry.value none (some (utf16 "la"))])) noGenius
      (utf16 "x") (some (utf16 "y"))).outcome = .returned none ∧
    (fetchLyrics toLowerCase
      (constLrclib (jsonArray [Entry.null, Entry.value none (some (utf16 "la"))])) noGenius
      (utf16 "x") (some (utf16 "y"))).geniusProbes = [(utf16 "x", utf16 "y")] := by
  decide

/-- For the title `x` and the artist `A, B` there are twelve query variants.  With an
lrclib endpoint that has lyrics for every artist written with a comma, the third variant
`(x, "A, B")` is the first hit: the run returns its lyrics after the three queries
`(x, A)`, `(x, B)`, `(x, "A, B")`, none of the nine later variants is queried (three of
which would hit), and Genius is not queried. -/
theorem fetchLyrics_first_hit_witness :
    (queryVariants toLowerCase (utf16 "x") (utf16 "A, B")).length = 12 ∧
    ((queryVariants toLowerCase (utf16 "x") (utf16 "A, B")).drop 3).countP
      (fun q => hasLyricsEntry (commaLrclib q.1 q.2)) = 3 ∧
    (fetchLyrics toLowerCase commaLrclib noGenius (utf16 "x")
      (some (utf16 "A, B"))).outcome = .returned (some (utf16 "[00:01.00]Hello")) ∧
    (fetchLyrics toLowerCase commaLrclib noGenius (utf16 "x")
      (some (utf16 "A, B"))).lrclibProbes =
      [(utf16 "x", utf16 "A"), (utf16 "x", utf16 "B")] ++ [(utf16 "x", utf16 "A, B")] ∧
    (fetchLyrics toLowerCase commaLrclib noGenius (utf16 "x")
      (some (utf16 "A, B"))).geniusProbes = [] :=
  ⟨by decide, by decide,
    fetchLyrics_first_hit toLowerCase commaLrclib noGenius (utf16 "x") (utf16 "A, B")
      [(utf16 "x", utf16 "A"), (utf16 "x", utf16 "B")]
      ((queryVariants toLowerCase (utf16 "x") (utf16 "A, B")).drop 3)
      (utf16 "x") (utf16 "A, B") (some (utf16 "[00:01.00]Hello")) none
      (by decide) (by decide)
      (by
        intro q hq s p h
        have hnone : commaLrclib q.1 q.2 = none := by
          simp only [List.mem_cons, List.mem_singleton, List.not_mem_nil, or_false] at hq
          rcases hq with rfl | rfl <;> decide
        rw [hnone] at h
        exact not_reachableHit_none s p h)
      ⟨⟨true, some (utf16 "application/json; charset=utf-8"),
          some (.array [Entry.value (some (utf16 "[00:01.00]Hello")) none])⟩,
        [], [], by decide, by decide, rfl, by simp, rfl⟩⟩

/-- For the title `x`, the artist `y` and the plain lyrics `la`, the run returns the lyrics
behind the marker and `saveLyrics` chooses `.lrc`. -/
theorem plain_lyrics_saved_as_lrc_witness :
    (fetchLyrics toLowerCase
      (constLrclib (jsonArray [Entry.value none (some (code 'l' :: utf16 "a"))]))
      noGenius (utf16 "x") (some (utf16 "y"))).outcome =
        .returned (some (unsyncedMarker ++ code 'l' :: utf16 "a")) ∧
    saveLyricsExt (unsyncedMarker ++ code 'l' :: utf16 "a") = utf16 ".lrc" :=
  plain_lyrics_saved_as_lrc toLowerCase noGenius (utf16 "x") (utf16 "y") (code 'l')
    (utf16 "a")
    (by
      intro a others h
      have hv : artistVariants (utf16 "y") = [utf16 "y"] := by decide
      rw [hv] at h
      injection h with h1 _
      rw [← h1]
      decide)

/-- The first two lrclib queries for the title `x` and the artist `A, a`, which are
`(x, A)` and `(x, "A, a")`, differ in the lower-cased artist. -/
theorem lrclibProbes_distinct_witness :
    ¬ (toLowerCase (utf16 "x") = toLowerCase (utf16 "x") ∧
        toLowerCase (utf16 "A") = toLowerCase (utf16 "A, a")) :=
  lrclibProbes_distinct toLowerCase (constLrclib none) noGenius (utf16 "x") (utf16 "A, a")
    0 1 (utf16 "x") (utf16 "A") (utf16 "x") (utf16 "A, a") (by decide) (by decide) (by decide)

/-- C9 fails as stated.  For the title made of U+212A KELVIN SIGN followed by `(k)` the
title variants are the empty string, the Kelvin sign, the title and `k`; the Kelvin sign
and `k` have the same lower-cased form, so the pair `(k, "")` is never queried. -/
theorem kelvin_title_variant_skipped :
    titleVariants (utf16 "\u212A(k)") =
      [[], utf16 "\u212A", utf16 "\u212A(k)", utf16 "k"] ∧
    (fetchLyrics toLowerCase (constLrclib none) noGenius (utf16 "\u212A(k)")
      (some [])).lrclibProbes =
      [([], []), (utf16 "\u212A", []), (utf16 "\u212A(k)", [])] ∧
    (fetchLyrics toLowerCase (constLrclib none) noGenius (utf16 "\u212A(k)")
      (some [])).lrclibProbes ≠
      (titleVariants (utf16 "\u212A(k)")).map (fun t => (t, [])) := by
  decide

/-- For the title `Song (Official Video)` and the empty artist the lrclib queries are the
three title variants, each paired with the empty string. -/
theorem empty_artist_queries_witness :
    (fetchLyrics toLowerCase (constLrclib none) noGenius (utf16 "Song (Official Video)")
      (some [])).lrclibProbes =
      (titleVariants (utf16 "Song (Official Video)")).map (fun t => (t, [])) :=
  (empty_artist_queries toLowerCase (constLrclib none) noGenius
    (utf16 "Song (Official Video)")
    (by
      have hq : queryVariants toLowerCase (utf16 "Song (Official Video)") [] =
          [ (utf16 "Song", []), (utf16 "Song (Official Video)", []),
            (utf16 "Song Official Video", []) ] := by decide
      intro q hq1
      rw [hq] at hq1
      refine ⟨?_, Or.inl rfl⟩
      simp only [List.mem_cons, List.mem_singleton, List.not_mem_nil, or_false] at hq1
      rcases hq1 with rfl | rfl | rfl <;> decide)).2.2.2.2 (by decide)

end MusicDownloader
